import Mathlib

/-!
Verification development for the news-pipeline program.

Strings from the source are modelled as `List Char` (one entry per Unicode
code point, matching the way the source language indexes and measures
strings).  Each definition below is a direct translation of a function of
the repository; the scanning passes that the source expresses with a
regular-expression substitution or an index-based while loop are written
as recursions over the character list (with an explicit fuel argument,
set to the list length, where the recursion is not structural).
-/

/-! ## Formatter: escape_md_v2_preserving_formatting (main.py lines 49-70) -/

/-- Character class of the regex substitutions: any character other than
an underscore or a newline (the class written as caret underscore newline
in the source patterns). -/
def pClass (c : Char) : Bool := !(c == '_') && !(c == '\n')

/-- One left-to-right pass of the first substitution of the source: a
double underscore, followed by a nonempty run of `pClass` characters,
followed by a double underscore, is rewritten to the same run wrapped in
double asterisks.  When no match starts at the current position the
scanner advances one character, exactly as the regex engine does.  The
fuel argument only bounds the recursion; it is instantiated with the list
length, which the scan never exceeds since every step consumes at least
one character. -/
def subBoldF : Nat → List Char → List Char
  | 0, l => l
  | _ + 1, [] => []
  | f + 1, '_' :: '_' :: rest =>
    let run := rest.takeWhile pClass
    match rest.dropWhile pClass with
    | '_' :: '_' :: rest2 =>
      if run = [] then '_' :: subBoldF f ('_' :: rest)
      else '*' :: '*' :: (run ++ '*' :: '*' :: subBoldF f rest2)
    | _ => '_' :: subBoldF f ('_' :: rest)
  | f + 1, c :: rest => c :: subBoldF f rest

/-- The first substitution pass (double underscore to double asterisk). -/
def subBold (l : List Char) : List Char := subBoldF l.length l

/-- One left-to-right pass of the second substitution of the source: a
single underscore, a nonempty run of `pClass` characters, and a closing
single underscore become the run wrapped in single asterisks. -/
def subItalicF : Nat → List Char → List Char
  | 0, l => l
  | _ + 1, [] => []
  | f + 1, '_' :: rest =>
    let run := rest.takeWhile pClass
    match rest.dropWhile pClass with
    | '_' :: rest2 =>
      if run = [] then '_' :: subItalicF f rest
      else '*' :: (run ++ '*' :: subItalicF f rest2)
    | _ => '_' :: subItalicF f rest
  | f + 1, c :: rest => c :: subItalicF f rest

/-- The second substitution pass (single underscore to single asterisk). -/
def subItalic (l : List Char) : List Char := subItalicF l.length l

/-- The replacement of every double asterisk by the private bold mask
character, left to right and non-overlapping, as the string replace of
the source does. -/
def maskBold : List Char → List Char
  | '*' :: '*' :: rest => '\uE001' :: maskBold rest
  | c :: rest => c :: maskBold rest
  | [] => []

/-- The replacement of every remaining asterisk by the private italic
mask character. -/
def maskItalic (l : List Char) : List Char :=
  l.map fun c => if c = '*' then '\uE002' else c

/-- Escaping of literal backslashes: each backslash becomes two.  This is
run before the reserved-character escaping, as in the source. -/
def escBackslash : List Char → List Char
  | [] => []
  | c :: rest => (if c = '\\' then ['\\', '\\'] else [c]) ++ escBackslash rest

/-- The reserved set of the generic escaping regex of the source:
underscore, brackets, parentheses, tilde, backtick, greater-than, hash,
plus, minus, equals, pipe, braces, dot, exclamation mark. -/
def isSpecialChar (c : Char) : Bool :=
  c ∈ ['_', '[', ']', '(', ')', '~', '`', '>', '#', '+', '-', '=', '|',
       '{', '}', '.', '!']

/-- The generic escaping pass: every reserved character is prefixed with a
backslash. -/
def escSpecial : List Char → List Char
  | [] => []
  | c :: rest => (if isSpecialChar c then ['\\', c] else [c]) ++ escSpecial rest

/-- Restoring the bold mask to a double asterisk. -/
def unmaskBold : List Char → List Char
  | [] => []
  | c :: rest => (if c = '\uE001' then ['*', '*'] else [c]) ++ unmaskBold rest

/-- Restoring the italic mask to a single asterisk. -/
def unmaskItalic : List Char → List Char
  | [] => []
  | c :: rest => (if c = '\uE002' then ['*'] else [c]) ++ unmaskItalic rest

/-- The normalisation and masking stages of the formatter: both underscore
conventions rewritten to asterisk form, then the canonical markers masked
with private-use placeholders. -/
def maskedStage (text : List Char) : List Char :=
  maskItalic (maskBold (subItalic (subBold text)))

/-- The full formatter of the source: normalise, mask, escape backslashes,
escape reserved characters, unmask. -/
def escape_md_v2_preserving_formatting (text : List Char) : List Char :=
  unmaskItalic (unmaskBold (escSpecial (escBackslash (maskedStage text))))

/-! ## Truncator: truncate_markdown_v2_safely (main.py lines 73-96) -/

/-- The scanning loop of the truncator.  It walks the text while the
position is below the stop bound (the minimum of length and limit),
toggles the bold depth on an unescaped double asterisk (consuming two
characters), toggles the italic depth on an unescaped lone asterisk, and
records the position of the last space seen while both depths are zero.
The previous character is carried explicitly; a character counts as
escaped when the previous character is a backslash, exactly as the
source checks the character before the current index. -/
def truncLoop : List Char → Option Char → Nat → Nat → Bool → Bool → Option Nat → Option Nat
  | [], _, _, _, _, _, lss => lss
  | c :: [], _prev, i, stop, ob, oi, lss =>
    if i < stop then
      if c = ' ' ∧ ob = false ∧ oi = false then some i else lss
    else lss
  | c :: d :: s, prev, i, stop, ob, oi, lss =>
    if i < stop then
      if c = '*' ∧ d = '*' ∧ prev ≠ some '\\' then
        truncLoop s (some '*') (i + 2) stop (!ob) oi lss
      else
        truncLoop (d :: s) (some c) (i + 1) stop ob
          (if c = '*' ∧ prev ≠ some '\\' ∧ d ≠ '*' then !oi else oi)
          (if c = ' ' ∧ ob = false ∧ oi = false then some i else lss)
    else lss

/-- Whitespace characters stripped by the trailing strip of the source. -/
def isPyWhitespace (c : Char) : Bool :=
  c ∈ [' ', '\t', '\n', '\r', '\u000B', '\u000C']

/-- Removal of trailing whitespace, as the right strip of the source. -/
def rstripChars (l : List Char) : List Char :=
  (l.reverse.dropWhile isPyWhitespace).reverse

/-- The safe truncation of the source: text at or below the limit is
returned unchanged; otherwise the scan looks for the last safe space, the
cut falls back to limit minus one when no safe space was seen, trailing
whitespace is stripped and the ellipsis character appended. -/
def truncate_markdown_v2_safely (text : List Char) (limit : Nat) : List Char :=
  if text.length ≤ limit then text
  else
    let lss := truncLoop text none 0 (min text.length limit) false false none
    let cut := lss.getD (limit - 1)
    rstripChars (text.take cut) ++ ['…']

/-- prepare_markdown_v2 of the source: escape, then truncate only when a
limit is supplied and the escaped text exceeds it. -/
def prepare_markdown_v2 (text : List Char) (limit : Option Nat) : List Char :=
  let escaped := escape_md_v2_preserving_formatting text
  match limit with
  | some l => if escaped.length > l then truncate_markdown_v2_safely escaped l else escaped
  | none => escaped

/-! ## Analysis functions over escaped text

These definitions give the notions the specification quantifies over:
which reserved characters of a string count as unescaped, the inverse of
one level of backslash escaping, and the span scan that walks a string
with the same tokenisation as the truncator loop (unescaped double
asterisk toggles bold, unescaped lone asterisk toggles italic). -/

/-- The unescaped reserved characters of a string, in order: a backslash
consumes the following character as escaped, any other character is
reported when it belongs to the reserved set. -/
def unescapedReserved : List Char → List Char
  | [] => []
  | c :: rest =>
    if c = '\\' then
      match rest with
      | [] => []
      | _ :: rest2 => unescapedReserved rest2
    else (if isSpecialChar c then [c] else []) ++ unescapedReserved rest

/-- Removal of one level of backslash escaping: a backslash makes the
following character literal. -/
def unescapeOnce : List Char → List Char
  | [] => []
  | c :: rest =>
    if c = '\\' then
      match rest with
      | [] => ['\\']
      | d :: rest2 => d :: unescapeOnce rest2
    else c :: unescapeOnce rest

/-- Full span scan of a string with the tokenisation of the truncator
loop: given the previous character and the current bold and italic
depths, return the depths after scanning the whole string. -/
def spanScan : List Char → Option Char → Bool → Bool → Bool × Bool
  | [], _, ob, oi => (ob, oi)
  | c :: [], prev, ob, oi =>
    (ob, if c = '*' ∧ prev ≠ some '\\' then !oi else oi)
  | c :: d :: s, prev, ob, oi =>
    if c = '*' ∧ d = '*' ∧ prev ≠ some '\\' then
      spanScan s (some '*') (!ob) oi
    else
      spanScan (d :: s) (some c) ob
        (if c = '*' ∧ prev ≠ some '\\' ∧ d ≠ '*' then !oi else oi)

/-- Counts of unescaped canonical markers, with the tokenisation of the
truncator loop: first component counts double-asterisk bold markers,
second counts lone-asterisk italic markers. -/
def countMarkers : List Char → Option Char → Nat × Nat
  | [], _ => (0, 0)
  | c :: [], prev =>
    (0, if c = '*' ∧ prev ≠ some '\\' then 1 else 0)
  | c :: d :: s, prev =>
    if c = '*' ∧ d = '*' ∧ prev ≠ some '\\' then
      ((countMarkers s (some '*')).1 + 1, (countMarkers s (some '*')).2)
    else
      ((countMarkers (d :: s) (some c)).1,
       if c = '*' ∧ prev ≠ some '\\' ∧ d ≠ '*' then
         (countMarkers (d :: s) (some c)).2 + 1
       else (countMarkers (d :: s) (some c)).2)

/-! ## Delivery chain: send_to_telegram (main.py lines 130-218) -/

/-- Caption used by both photo attempts (main.py lines 145-153): escape
the body, truncate it to the photo caption budget of 1024 minus the link
length when the escaped body plus the link would not fit, then append the
prebuilt markdown link. -/
def buildPhotoCaption (post_text link_md2 : List Char) : List Char :=
  let base := prepare_markdown_v2 post_text none
  let base2 :=
    if base.length + link_md2.length > 1024 then
      truncate_markdown_v2_safely base (1024 - link_md2.length)
    else base
  base2 ++ link_md2

/-- Body used by the rich-text attempt (main.py lines 189-196): escape the
body, append the link, and when the whole exceeds 4096 re-truncate the
base to 4096 minus the link length and append the link again. -/
def buildTextBody (post_text link_md2 : List Char) : List Char :=
  let base := prepare_markdown_v2 post_text none
  let final := base ++ link_md2
  if final.length > 4096 then
    truncate_markdown_v2_safely base (4096 - link_md2.length) ++ link_md2
  else final

/-- Payload of the plain-text attempt (main.py lines 139-140 and 209):
the raw body with the plain link, hard-cut to 4092 characters plus three
dots when over 4096. -/
def buildPlainText (post_text plain_link : List Char) : List Char :=
  let full := post_text ++ plain_link
  if full.length ≤ 4096 then full else full.take 4092 ++ ['.', '.', '.']

/-- Result of one primitive transport call: success, the typed transport
failure of the messaging library, or any other exception. -/
inductive Outcome
  | ok
  | tgError
  | otherError
deriving DecidableEq, Repr

/-- The four delivery strategies, in chain order. -/
inductive Strategy
  | RemotePhoto
  | ReuploadedPhoto
  | RichText
  | PlainText
deriving DecidableEq, Repr

/-- Terminal result of the chain: a delivery by some strategy, or the
exhausted-chain failure that the source logs at critical severity. -/
inductive SendResult
  | delivered (s : Strategy)
  | exhaustedCritical
deriving DecidableEq, Repr

/-- The transport collaborator: outcome of each primitive send call and
whether the image download produced an input file. -/
structure Transport where
  sendPhotoUrl : Outcome
  buildInputFile : Bool
  sendPhotoFile : Outcome
  sendMessageMd : Outcome
  sendMessagePlain : Outcome

/-- The delivery chain of the source, as a function of the transport
outcomes.  The value is the ordered list of delivery attempts (strategy
and payload) together with the terminal result; an exception that no
handler of the function catches is the error case, which propagates to
the caller.  With an image the chain starts at the remote photo send; a
typed failure there falls through to the re-upload (skipped when the
download yields no file, since the raised typed error is caught by the
same handler), then to the rich-text message, then to the plain message
with markup disabled; a typed failure of the last attempt ends the run
with the exhausted-chain result. -/
def send_to_telegram (post_text link_md2 plain_link : List Char)
    (image_url : Option (List Char)) (t : Transport) :
    Except Unit (List (Strategy × List Char) × SendResult) :=
  let caption := buildPhotoCaption post_text link_md2
  let textPhase : List (Strategy × List Char) →
      Except Unit (List (Strategy × List Char) × SendResult) := fun tr =>
    let body := buildTextBody post_text link_md2
    match t.sendMessageMd with
    | .ok => .ok (tr ++ [(.RichText, body)], .delivered .RichText)
    | .tgError =>
      let plain := buildPlainText post_text plain_link
      match t.sendMessagePlain with
      | .ok => .ok (tr ++ [(.RichText, body), (.PlainText, plain)], .delivered .PlainText)
      | .tgError => .ok (tr ++ [(.RichText, body), (.PlainText, plain)], .exhaustedCritical)
      | .otherError => .error ()
    | .otherError => .error ()
  match image_url with
  | none => textPhase []
  | some _ =>
    match t.sendPhotoUrl with
    | .ok => .ok ([(.RemotePhoto, caption)], .delivered .RemotePhoto)
    | .tgError =>
      if t.buildInputFile then
        match t.sendPhotoFile with
        | .ok => .ok ([(.RemotePhoto, caption), (.ReuploadedPhoto, caption)],
                      .delivered .ReuploadedPhoto)
        | .tgError => textPhase [(.RemotePhoto, caption), (.ReuploadedPhoto, caption)]
        | .otherError => .error ()
      else textPhase [(.RemotePhoto, caption)]
    | .otherError => textPhase [(.RemotePhoto, caption)]

/-! ## Image selection: select_best_image (ai_content_processor.py lines 76-161) -/

/-- Outcome of the ranking collaborator: the model call raises, or it
returns a raw answer string. -/
inductive RankOutcome
  | apiError
  | answer (raw : List Char)

/-- The first maximal digit run of a string, as the digit-group search of
the source finds it. -/
def digitRun : List Char → Option (List Char)
  | [] => none
  | c :: rest =>
    if c.isDigit then some (c :: rest.takeWhile Char.isDigit) else digitRun rest

/-- Decimal value of a digit run. -/
def digitsToNat (l : List Char) : Nat :=
  l.foldl (fun a c => 10 * a + (c.toNat - 48)) 0

/-- The first integer of the raw ranking answer, when any digit occurs. -/
def extractFirstNat (raw : List Char) : Option Nat :=
  (digitRun raw).map digitsToNat

/-- The image selection of the source.  The download-and-validate loop
over the first five candidates is abstracted by the download predicate
(any exception while fetching or decoding a candidate skips it); the
surviving candidates are kept in order.  An empty candidate list and an
empty survivor list both yield no image.  Otherwise the ranking answer is
parsed for its first integer; a one-based index within range selects that
survivor, any other answer and a ranking failure fall back to the first
survivor. -/
def select_best_image (image_urls : List (List Char))
    (download : List Char → Bool) (rank : RankOutcome) : Option (List Char) :=
  if image_urls = [] then none
  else
    let valid := (image_urls.take 5).filter download
    if hv : valid = [] then none
    else
      match rank with
      | .apiError => some (valid.head hv)
      | .answer raw =>
        match extractFirstNat raw with
        | some n =>
          if hn : 1 ≤ n ∧ n - 1 < valid.length then some (valid.get ⟨n - 1, hn.2⟩)
          else some (valid.head hv)
        | none => some (valid.head hv)

/-! ## Scheduler: schedule setup in main (main.py lines 269-287) -/

/-- Length in minutes of one scheduling sub-interval: the window length
divided by the number of posts, or the whole window plus one when no
posts are requested (the division guard of the source). -/
def intervalMinutes (posts_per_day start_hour end_hour : Nat) : Nat :=
  let total := (end_hour - start_hour) * 60
  if posts_per_day > 0 then total / posts_per_day else total + 1

/-- Absolute minute offset of job i inside the window: the start of its
sub-interval plus the random offset drawn for it. -/
def jobAbs (posts_per_day start_hour end_hour : Nat) (off : Nat → Nat) (i : Nat) : Nat :=
  i * intervalMinutes posts_per_day start_hour end_hour + off i

/-- The schedule built by main: one cron job per sub-interval, at the hour
and minute obtained from the absolute minute offset.  The random draw of
the source is modelled by the offset function, one value per job, each
bounded by the sub-interval length minus one (the bound of the random
call). -/
def scheduleRuns (posts_per_day start_hour end_hour : Nat) (off : Nat → Nat) :
    List (Nat × Nat) :=
  (List.range posts_per_day).map fun i =>
    let m := jobAbs posts_per_day start_hour end_hour off i
    (start_hour + m / 60, m % 60)

/-! ## Theorems -/

/-- Claim C1: with an image present and every strategy failing with the
typed transport failure (the re-upload path having produced a file whose
send then fails), the chain performs exactly four delivery attempts, in
the fixed order remote photo, re-uploaded photo, rich text, plain text,
and terminates with the exhausted-chain failure the source logs at
critical severity; the run is an explicit outcome, never a silent drop. -/
theorem claim1_delivery_chain_exhausted (pt link plain img : List Char) (t : Transport)
    (h1 : t.sendPhotoUrl = .tgError) (h2 : t.buildInputFile = true)
    (h3 : t.sendPhotoFile = .tgError) (h4 : t.sendMessageMd = .tgError)
    (h5 : t.sendMessagePlain = .tgError) :
    send_to_telegram pt link plain (some img) t =
      .ok ([(.RemotePhoto, buildPhotoCaption pt link),
            (.ReuploadedPhoto, buildPhotoCaption pt link),
            (.RichText, buildTextBody pt link),
            (.PlainText, buildPlainText pt plain)], .exhaustedCritical) := by
  obtain ⟨pu, bf, pf, mm, mp⟩ := t
  simp only at h1 h2 h3 h4 h5
  subst h1 h2 h3 h4 h5
  rfl

/-- Witness for claim C1 at a concrete transport and draft. -/
theorem claim1_delivery_chain_exhausted_witness :
    send_to_telegram ['h', 'i'] ['L'] ['P'] (some ['u'])
        ⟨.tgError, true, .tgError, .tgError, .tgError⟩ =
      .ok ([(.RemotePhoto, buildPhotoCaption ['h', 'i'] ['L']),
            (.ReuploadedPhoto, buildPhotoCaption ['h', 'i'] ['L']),
            (.RichText, buildTextBody ['h', 'i'] ['L']),
            (.PlainText, buildPlainText ['h', 'i'] ['P'])], .exhaustedCritical) :=
  claim1_delivery_chain_exhausted ['h', 'i'] ['L'] ['P'] ['u'] _ rfl rfl rfl rfl rfl

/-- Claim C9: truncation is the identity on strings already within the
budget, both for the bare truncation function and through the guard of
prepare_markdown_v2. -/
theorem claim9_truncate_identity (s : List Char) (limit : Nat) (h : s.length ≤ limit) :
    truncate_markdown_v2_safely s limit = s := by
  simp [truncate_markdown_v2_safely, h]

/-- Witness for claim C9. -/
theorem claim9_truncate_identity_witness :
    truncate_markdown_v2_safely ['a', 'b'] 5 = ['a', 'b'] :=
  claim9_truncate_identity ['a', 'b'] 5 (by decide)

/-- Claim C8: the schedule puts exactly one run in each sub-interval.
For three posts over the nine-to-twenty-one window the sub-interval is
240 minutes; for every choice of offsets within the random bound, three
jobs are scheduled, job i falls inside the half-open sub-interval number
i (so the sub-intervals do not overlap and carry one run each), every
scheduled time lies strictly inside the window, and zero posts per day
schedules no jobs.  The general length equation gives one job per
sub-interval for every parameter choice. -/
theorem claim8_schedule_windows (off : Nat → Nat) (hoff : ∀ i, i < 3 → off i ≤ 239) :
    (scheduleRuns 3 9 21 off).length = 3 ∧
    (∀ n ws we off2, (scheduleRuns n ws we off2).length = n) ∧
    (∀ i, i < 3 → 240 * i ≤ jobAbs 3 9 21 off i ∧ jobAbs 3 9 21 off i < 240 * (i + 1)) ∧
    (∀ p ∈ scheduleRuns 3 9 21 off, 9 ≤ p.1 ∧ p.1 < 21) ∧
    scheduleRuns 0 9 21 off = [] := by
  have hint : intervalMinutes 3 9 21 = 240 := by norm_num [intervalMinutes]
  have habs : ∀ i, i < 3 → jobAbs 3 9 21 off i < 720 := by
    intro i hi
    have := hoff i hi
    simp only [jobAbs, hint]
    omega
  refine ⟨by simp [scheduleRuns], fun n ws we off2 => by simp [scheduleRuns],
    fun i hi => ?_, fun p hp => ?_, by simp [scheduleRuns]⟩
  · have := hoff i hi
    simp only [jobAbs, hint]
    omega
  · simp only [scheduleRuns, List.mem_map, List.mem_range] at hp
    obtain ⟨i, hi, rfl⟩ := hp
    constructor
    · exact Nat.le_add_right 9 _
    · have h720 := habs i hi
      have : jobAbs 3 9 21 off i / 60 < 12 :=
        (Nat.div_lt_iff_lt_mul (by norm_num)).mpr (by omega)
      omega

/-- Witness for claim C8 with the zero offset function. -/
theorem claim8_schedule_windows_witness :
    (scheduleRuns 3 9 21 (fun _ => 0)).length = 3 ∧
    (∀ n ws we off2, (scheduleRuns n ws we off2).length = n) ∧
    (∀ i, i < 3 → 240 * i ≤ jobAbs 3 9 21 (fun _ => 0) i ∧
      jobAbs 3 9 21 (fun _ => 0) i < 240 * (i + 1)) ∧
    (∀ p ∈ scheduleRuns 3 9 21 (fun _ => 0), 9 ≤ p.1 ∧ p.1 < 21) ∧
    scheduleRuns 0 9 21 (fun _ => 0) = [] :=
  claim8_schedule_windows (fun _ => 0) (fun _ _ => by norm_num)

/-- Claim C7 counterexample: one candidate is supplied, its download
fails, the ranking collaborator fails, and the selection returns no image
rather than falling back to the first supplied candidate; so the claim
that a non-empty candidate list never yields no image is false. -/
theorem claim7_counterexample :
    select_best_image [['u']] (fun _ => false) .apiError = none ∧
    ([['u']] : List (List Char)) ≠ [] := by
  constructor
  · rfl
  · decide

/-- Unfolding of the selection for a failed ranking call. -/
theorem sel_apiError (urls : List (List Char)) (download : List Char → Bool)
    (hv : (urls.take 5).filter download ≠ []) :
    select_best_image urls download .apiError =
      some (((urls.take 5).filter download).head hv) := by
  have hu : urls ≠ [] := by intro h; subst h; simp at hv
  unfold select_best_image
  rw [if_neg hu, dif_neg hv]

/-- Unfolding of the selection for an answer without digits. -/
theorem sel_answer_none (urls : List (List Char)) (download : List Char → Bool)
    (raw : List Char) (he : extractFirstNat raw = none)
    (hv : (urls.take 5).filter download ≠ []) :
    select_best_image urls download (.answer raw) =
      some (((urls.take 5).filter download).head hv) := by
  have hu : urls ≠ [] := by intro h; subst h; simp at hv
  unfold select_best_image
  rw [if_neg hu, dif_neg hv]
  simp only [he]

/-- Unfolding of the selection for an answer whose integer is out of
range. -/
theorem sel_answer_oob (urls : List (List Char)) (download : List Char → Bool)
    (raw : List Char) (n : Nat) (he : extractFirstNat raw = some n)
    (hn : ¬(1 ≤ n ∧ n - 1 < ((urls.take 5).filter download).length))
    (hv : (urls.take 5).filter download ≠ []) :
    select_best_image urls download (.answer raw) =
      some (((urls.take 5).filter download).head hv) := by
  have hu : urls ≠ [] := by intro h; subst h; simp at hv
  unfold select_best_image
  rw [if_neg hu, dif_neg hv]
  simp only [he]
  rw [dif_neg hn]

/-- Unfolding of the selection for an answer whose integer is in range. -/
theorem sel_answer_idx (urls : List (List Char)) (download : List Char → Bool)
    (raw : List Char) (n : Nat) (he : extractFirstNat raw = some n)
    (hn : 1 ≤ n ∧ n - 1 < ((urls.take 5).filter download).length)
    (hv : (urls.take 5).filter download ≠ []) :
    select_best_image urls download (.answer raw) =
      some (((urls.take 5).filter download).get ⟨n - 1, hn.2⟩) := by
  have hu : urls ≠ [] := by intro h; subst h; simp at hv
  unfold select_best_image
  rw [if_neg hu, dif_neg hv]
  simp only [he]
  rw [dif_pos hn]

/-- Claim C7 amended: when at least one of the first five candidates
survives the download step, a ranking failure, an answer with no digits,
and an answer whose integer is out of range all fall back to the first
surviving candidate, and the selection never returns no image; when no
candidate survives the download step the selection does return no image,
even though candidates were supplied. -/
theorem claim7_amended_fallback (urls : List (List Char)) (download : List Char → Bool)
    (rank : RankOutcome) (hv : (urls.take 5).filter download ≠ []) :
    (select_best_image urls download rank).isSome = true ∧
    (rank = .apiError →
      select_best_image urls download rank =
        some (((urls.take 5).filter download).head hv)) ∧
    (∀ raw, rank = .answer raw → extractFirstNat raw = none →
      select_best_image urls download rank =
        some (((urls.take 5).filter download).head hv)) ∧
    (∀ raw n, rank = .answer raw → extractFirstNat raw = some n →
      ¬(1 ≤ n ∧ n - 1 < ((urls.take 5).filter download).length) →
      select_best_image urls download rank =
        some (((urls.take 5).filter download).head hv)) := by
  refine ⟨?_, ?_, ?_, ?_⟩
  · cases rank with
    | apiError => rw [sel_apiError urls download hv]; rfl
    | answer raw =>
      cases he : extractFirstNat raw with
      | none => rw [sel_answer_none urls download raw he hv]; rfl
      | some n =>
        by_cases hn : 1 ≤ n ∧ n - 1 < ((urls.take 5).filter download).length
        · rw [sel_answer_idx urls download raw n he hn hv]; rfl
        · rw [sel_answer_oob urls download raw n he hn hv]; rfl
  · intro hr
    subst hr
    exact sel_apiError urls download hv
  · intro raw hr he
    subst hr
    exact sel_answer_none urls download raw he hv
  · intro raw n hr he hn
    subst hr
    exact sel_answer_oob urls download raw n he hn hv

/-- Witness for the amended claim C7: a surviving candidate with a failed
ranking yields that candidate. -/
theorem claim7_amended_fallback_witness :
    (select_best_image [['u']] (fun _ => true) .apiError).isSome = true :=
  (claim7_amended_fallback [['u']] (fun _ => true) .apiError (by decide)).1

/-- Claim C10: the selection never fabricates a URL: any returned value
is one of the first five supplied candidates (hence a member of the
supplied list), and an empty candidate list always yields no image. -/
theorem claim10_selection_membership (urls : List (List Char))
    (download : List Char → Bool) (rank : RankOutcome) :
    (∀ u, select_best_image urls download rank = some u →
      u ∈ urls.take 5 ∧ u ∈ urls) ∧
    (urls = [] → select_best_image urls download rank = none) := by
  constructor
  · intro u hu
    have hmem : u ∈ (urls.take 5).filter download := by
      by_cases h0 : urls = []
      · subst h0
        exact absurd hu (by simp [select_best_image])
      · by_cases hv : (urls.take 5).filter download = []
        · have : select_best_image urls download rank = none := by
            unfold select_best_image
            rw [if_neg h0, dif_pos hv]
          rw [this] at hu
          exact absurd hu (by simp)
        · cases rank with
          | apiError =>
            rw [sel_apiError urls download hv] at hu
            cases hu
            exact List.head_mem hv
          | answer raw =>
            cases h : extractFirstNat raw with
            | none =>
              rw [sel_answer_none urls download raw h hv] at hu
              cases hu
              exact List.head_mem hv
            | some n =>
              by_cases hn : 1 ≤ n ∧ n - 1 < ((urls.take 5).filter download).length
              · rw [sel_answer_idx urls download raw n h hn hv] at hu
                cases hu
                exact List.get_mem _ _ _
              · rw [sel_answer_oob urls download raw n h hn hv] at hu
                cases hu
                exact List.head_mem hv
    have htake : u ∈ urls.take 5 := List.mem_of_mem_filter hmem
    exact ⟨htake, List.take_subset 5 urls htake⟩
  · intro h0
    subst h0
    rfl

/-- Witness for claim C10 at concrete inputs. -/
theorem claim10_selection_membership_witness :
    select_best_image [] (fun _ => true) .apiError = none :=
  (claim10_selection_membership [] (fun _ => true) .apiError).2 rfl

/-- Every position the truncator scan can return was recorded below the
stop bound. -/
theorem truncLoop_lt_stop (s : List Char) (prev : Option Char) (i stop : Nat)
    (ob oi : Bool) (lss : Option Nat) :
    (∀ j, lss = some j → j < stop) →
    ∀ j, truncLoop s prev i stop ob oi lss = some j → j < stop := by
  induction s, prev, i, stop, ob, oi, lss using truncLoop.induct with
  | case1 x x1 x2 x3 x4 lss =>
    intro h j hj
    exact h j hj
  | case2 c prev i stop ob oi lss h1 h2 =>
    intro h j hj
    simp only [truncLoop, if_pos h1, if_pos h2, Option.some.injEq] at hj
    omega
  | case3 c prev i stop ob oi lss h1 h2 =>
    intro h j hj
    simp only [truncLoop, if_pos h1, if_neg h2] at hj
    exact h j hj
  | case4 c prev i stop ob oi lss h1 =>
    intro h j hj
    simp only [truncLoop, if_neg h1] at hj
    exact h j hj
  | case5 c d s prev i stop ob oi lss h1 h2 ih =>
    intro h j hj
    simp only [truncLoop, if_pos h1, if_pos h2] at hj
    exact ih h j hj
  | case6 c d s prev i stop ob oi lss h1 h2 ih =>
    intro h j hj
    simp only [truncLoop, if_pos h1, if_neg h2] at hj
    refine ih ?_ j hj
    intro j2 hj2
    by_cases hsp : c = ' ' ∧ ob = false ∧ oi = false
    · rw [if_pos hsp, Option.some.injEq] at hj2
      omega
    · rw [if_neg hsp] at hj2
      exact h j2 hj2
  | case7 c d s prev i stop ob oi lss h1 =>
    intro h j hj
    simp only [truncLoop, if_neg h1] at hj
    exact h j hj

/-- Stripping trailing whitespace does not lengthen a string. -/
theorem rstripChars_length_le (l : List Char) : (rstripChars l).length ≤ l.length := by
  simp only [rstripChars, List.length_reverse]
  calc (l.reverse.dropWhile isPyWhitespace).length
      ≤ l.reverse.length := (List.dropWhile_sublist isPyWhitespace).length_le
    _ = l.length := List.length_reverse l

/-- The cut position chosen by the truncator is below the limit whenever
the limit is positive. -/
theorem truncate_cut_le (text : List Char) (limit : Nat) :
    (truncLoop text none 0 (min text.length limit) false false none).getD (limit - 1)
      ≤ limit - 1 := by
  cases hres : truncLoop text none 0 (min text.length limit) false false none with
  | none => simp
  | some j =>
    have hj : j < min text.length limit :=
      truncLoop_lt_stop text none 0 (min text.length limit) false false none
        (by intro j2 hj2; cases hj2) j hres
    simp only [Option.getD_some]
    omega

/-- Tight form of the truncation bound: a positive limit is never
exceeded. -/
theorem truncate_length_le (text : List Char) (limit : Nat) (hpos : 1 ≤ limit) :
    (truncate_markdown_v2_safely text limit).length ≤ limit := by
  unfold truncate_markdown_v2_safely
  by_cases h : text.length ≤ limit
  · rw [if_pos h]
    exact h
  · rw [if_neg h]
    have hcut := truncate_cut_le text limit
    have hstrip := rstripChars_length_le
      (text.take ((truncLoop text none 0 (min text.length limit) false false none).getD
        (limit - 1)))
    have htake : (text.take ((truncLoop text none 0 (min text.length limit) false false
        none).getD (limit - 1))).length ≤ limit - 1 := by
      rw [List.length_take]
      omega
    simp only [List.length_append, List.length_cons, List.length_nil]
    omega

/-- General form of the truncation bound, valid for a zero limit too. -/
theorem truncate_length_le_succ (text : List Char) (limit : Nat) :
    (truncate_markdown_v2_safely text limit).length ≤ limit + 1 := by
  rcases Nat.eq_zero_or_pos limit with h0 | hpos
  · subst h0
    unfold truncate_markdown_v2_safely
    by_cases h : text.length ≤ 0
    · rw [if_pos h]
      omega
    · rw [if_neg h]
      have hcut := truncate_cut_le text 0
      have hstrip := rstripChars_length_le
        (text.take ((truncLoop text none 0 (min text.length 0) false false none).getD
          (0 - 1)))
      have htake : (text.take ((truncLoop text none 0 (min text.length 0) false false
          none).getD (0 - 1))).length ≤ 0 := by
        rw [List.length_take]
        omega
      simp only [List.length_append, List.length_cons, List.length_nil]
      omega
  · exact le_trans (truncate_length_le text limit hpos) (Nat.le_succ limit)

/-- Claim C3: for every string and every limit, the safe truncation
returns a string of length at most the limit plus the length of the
ellipsis character (one), even when no safe space exists before the
limit; through the guard of prepare_markdown_v2 the same bound holds. -/
theorem claim3_truncate_length_bound (s : List Char) (limit : Nat) :
    (truncate_markdown_v2_safely s limit).length ≤ limit + 1 ∧
    (prepare_markdown_v2 s (some limit)).length ≤ limit + 1 := by
  refine ⟨truncate_length_le_succ s limit, ?_⟩
  show (if (escape_md_v2_preserving_formatting s).length > limit then
      truncate_markdown_v2_safely (escape_md_v2_preserving_formatting s) limit
    else escape_md_v2_preserving_formatting s).length ≤ limit + 1
  by_cases h : (escape_md_v2_preserving_formatting s).length > limit
  · rw [if_pos h]
    exact truncate_length_le_succ _ limit
  · rw [if_neg h]
    omega

/-- The first substitution pass leaves a run of the letter a alone. -/
theorem subBoldF_replicate_a (f n : Nat) :
    subBoldF f (List.replicate n 'a') = List.replicate n 'a' := by
  induction f generalizing n with
  | zero => rfl
  | succ f ih =>
    cases n with
    | zero => rfl
    | succ m =>
      rw [List.replicate_succ]
      rw [show subBoldF (f + 1) ('a' :: List.replicate m 'a') =
        'a' :: subBoldF f (List.replicate m 'a') from rfl, ih m]

/-- The second substitution pass leaves a run of the letter a alone. -/
theorem subItalicF_replicate_a (f n : Nat) :
    subItalicF f (List.replicate n 'a') = List.replicate n 'a' := by
  induction f generalizing n with
  | zero => rfl
  | succ f ih =>
    cases n with
    | zero => rfl
    | succ m =>
      rw [List.replicate_succ]
      rw [show subItalicF (f + 1) ('a' :: List.replicate m 'a') =
        'a' :: subItalicF f (List.replicate m 'a') from rfl, ih m]

/-- Masking leaves a run of the letter a alone. -/
theorem maskBold_replicate_a (n : Nat) :
    maskBold (List.replicate n 'a') = List.replicate n 'a' := by
  induction n with
  | zero => rfl
  | succ m ih =>
    rw [List.replicate_succ]
    rw [show maskBold ('a' :: List.replicate m 'a') =
      'a' :: maskBold (List.replicate m 'a') from rfl, ih]

/-- The whole formatter leaves a run of the letter a alone: it is a plain
letter, not a marker, a backslash or a reserved character. -/
theorem escape_replicate_a (n : Nat) :
    escape_md_v2_preserving_formatting (List.replicate n 'a') = List.replicate n 'a' := by
  have h1 : maskedStage (List.replicate n 'a') = List.replicate n 'a' := by
    unfold maskedStage subBold subItalic
    rw [List.length_replicate, subBoldF_replicate_a, List.length_replicate,
      subItalicF_replicate_a, maskBold_replicate_a]
    unfold maskItalic
    simp
  unfold escape_md_v2_preserving_formatting
  rw [h1]
  have h2 : ∀ m, escBackslash (List.replicate m 'a') = List.replicate m 'a' := by
    intro m
    induction m with
    | zero => rfl
    | succ k ih => rw [List.replicate_succ]; unfold escBackslash; simp [ih]
  have h3 : ∀ m, escSpecial (List.replicate m 'a') = List.replicate m 'a' := by
    intro m
    induction m with
    | zero => rfl
    | succ k ih => rw [List.replicate_succ]; unfold escSpecial; simp [ih, isSpecialChar]
  have h4 : ∀ m, unmaskBold (List.replicate m 'a') = List.replicate m 'a' := by
    intro m
    induction m with
    | zero => rfl
    | succ k ih => rw [List.replicate_succ]; unfold unmaskBold; simp [ih]
  have h5 : ∀ m, unmaskItalic (List.replicate m 'a') = List.replicate m 'a' := by
    intro m
    induction m with
    | zero => rfl
    | succ k ih => rw [List.replicate_succ]; unfold unmaskItalic; simp [ih]
  rw [h2, h3, h4, h5]

/-- In the plain-text fallback the hard cut applies to the string with
the link already appended. -/
theorem buildPlainText_overflow (pt link : List Char)
    (h : 4096 < pt.length + link.length) :
    buildPlainText pt link = (pt ++ link).take 4092 ++ ['.', '.', '.'] := by
  show (if (pt ++ link).length ≤ 4096 then pt ++ link
    else (pt ++ link).take 4092 ++ ['.', '.', '.']) =
    (pt ++ link).take 4092 ++ ['.', '.', '.']
  rw [if_neg (by rw [List.length_append]; omega)]

/-- Taking a short enough prefix of two concatenated runs keeps only the
first run. -/
theorem take_append_replicate (n m k : Nat) (a b : Char) (h : k ≤ n) :
    (List.replicate n a ++ List.replicate m b).take k = List.replicate k a := by
  rw [List.take_append_of_le_length (by rw [List.length_replicate]; omega),
    List.take_replicate]
  congr 1
  omega

/-- Claim C5 counterexample: in the plain-text delivery state the claim
fails.  With a 4096-character body and a 40-character plain link, the
payload the plain-text state sends is the first 4092 characters of the
link-inclusive string followed by three dots: the link was appended
before the cut, and here it is truncated away entirely (no character of
the link survives), so the link is not always appended only after
truncation and is not never truncated. -/
theorem claim5_counterexample :
    buildPlainText (List.replicate 4096 'a') (List.replicate 40 'L') =
      List.replicate 4092 'a' ++ ['.', '.', '.'] ∧
    'L' ∉ buildPlainText (List.replicate 4096 'a') (List.replicate 40 'L') := by
  have h1 := buildPlainText_overflow (List.replicate 4096 'a') (List.replicate 40 'L')
    (by rw [List.length_replicate, List.length_replicate]; omega)
  have h2 := take_append_replicate 4096 40 4092 'a' 'L' (by omega)
  have heq : buildPlainText (List.replicate 4096 'a') (List.replicate 40 'L') =
      List.replicate 4092 'a' ++ ['.', '.', '.'] := by
    rw [h1, h2]
  refine ⟨heq, ?_⟩
  rw [heq]
  intro hmem
  rcases List.mem_append.mp hmem with h | h
  · exact absurd (List.eq_of_mem_replicate h) (by decide)
  · exact absurd h (by decide)

/-- Claim C5 amended: in the delivery states that re-apply the markdown
pipeline — the photo caption shared by both photo attempts and the
rich-text body — the trailing link is appended only after truncation, so
there the link is never truncated and the truncation budget is the state
limit minus the link length (1024 for the caption, 4096 for the body);
the plain-text fallback is excluded, since it hard-cuts the
link-inclusive string at 4092 characters and can truncate the link.  In
particular, for a body whose escaped form has 1100 characters and a
40-character link, the caption equals the truncation of the escaped body
at budget 984 followed by the untouched link, the whole caption fits the
1024 budget, and the truncated part is at most 985 characters and ends
with the ellipsis. -/
theorem claim5_amended_link_after_truncation (pt link : List Char)
    (h1 : (escape_md_v2_preserving_formatting pt).length = 1100)
    (h2 : link.length = 40) :
    (∀ pt2 link2 : List Char, ∃ pre, buildPhotoCaption pt2 link2 = pre ++ link2) ∧
    (∀ pt2 link2 : List Char, ∃ pre, buildTextBody pt2 link2 = pre ++ link2) ∧
    (∀ pt2 link2 : List Char,
      (prepare_markdown_v2 pt2 none).length + link2.length > 1024 →
      buildPhotoCaption pt2 link2 =
        truncate_markdown_v2_safely (escape_md_v2_preserving_formatting pt2)
          (1024 - link2.length) ++ link2) ∧
    (∀ pt2 link2 : List Char,
      (prepare_markdown_v2 pt2 none ++ link2).length > 4096 →
      buildTextBody pt2 link2 =
        truncate_markdown_v2_safely (escape_md_v2_preserving_formatting pt2)
          (4096 - link2.length) ++ link2) ∧
    buildPhotoCaption pt link =
      truncate_markdown_v2_safely (escape_md_v2_preserving_formatting pt) 984 ++ link ∧
    (buildPhotoCaption pt link).length ≤ 1024 ∧
    (truncate_markdown_v2_safely (escape_md_v2_preserving_formatting pt) 984).length
      ≤ 985 ∧
    (truncate_markdown_v2_safely
      (escape_md_v2_preserving_formatting pt) 984).getLast? = some '…' := by
  have hphoto_suffix : ∀ pt2 link2 : List Char,
      ∃ pre, buildPhotoCaption pt2 link2 = pre ++ link2 := by
    intro pt2 link2
    exact ⟨if (prepare_markdown_v2 pt2 none).length + link2.length > 1024 then
        truncate_markdown_v2_safely (prepare_markdown_v2 pt2 none) (1024 - link2.length)
      else prepare_markdown_v2 pt2 none, rfl⟩
  have htext_suffix : ∀ pt2 link2 : List Char,
      ∃ pre, buildTextBody pt2 link2 = pre ++ link2 := by
    intro pt2 link2
    by_cases h : (prepare_markdown_v2 pt2 none ++ link2).length > 4096
    · refine ⟨truncate_markdown_v2_safely (prepare_markdown_v2 pt2 none)
        (4096 - link2.length), ?_⟩
      show (if (prepare_markdown_v2 pt2 none ++ link2).length > 4096 then
          truncate_markdown_v2_safely (prepare_markdown_v2 pt2 none)
            (4096 - link2.length) ++ link2
        else prepare_markdown_v2 pt2 none ++ link2) = _
      rw [if_pos h]
    · refine ⟨prepare_markdown_v2 pt2 none, ?_⟩
      show (if (prepare_markdown_v2 pt2 none ++ link2).length > 4096 then
          truncate_markdown_v2_safely (prepare_markdown_v2 pt2 none)
            (4096 - link2.length) ++ link2
        else prepare_markdown_v2 pt2 none ++ link2) = _
      rw [if_neg h]
  have hphoto_budget : ∀ pt2 link2 : List Char,
      (prepare_markdown_v2 pt2 none).length + link2.length > 1024 →
      buildPhotoCaption pt2 link2 =
        truncate_markdown_v2_safely (escape_md_v2_preserving_formatting pt2)
          (1024 - link2.length) ++ link2 := by
    intro pt2 link2 hgt
    show (if (prepare_markdown_v2 pt2 none).length + link2.length > 1024 then
        truncate_markdown_v2_safely (prepare_markdown_v2 pt2 none) (1024 - link2.length)
      else prepare_markdown_v2 pt2 none) ++ link2 = _
    rw [if_pos hgt]
    rfl
  have htext_budget : ∀ pt2 link2 : List Char,
      (prepare_markdown_v2 pt2 none ++ link2).length > 4096 →
      buildTextBody pt2 link2 =
        truncate_markdown_v2_safely (escape_md_v2_preserving_formatting pt2)
          (4096 - link2.length) ++ link2 := by
    intro pt2 link2 hgt
    show (if (prepare_markdown_v2 pt2 none ++ link2).length > 4096 then
        truncate_markdown_v2_safely (prepare_markdown_v2 pt2 none)
          (4096 - link2.length) ++ link2
      else prepare_markdown_v2 pt2 none ++ link2) = _
    rw [if_pos hgt]
    rfl
  have hbase : prepare_markdown_v2 pt none = escape_md_v2_preserving_formatting pt := rfl
  have hcond : (prepare_markdown_v2 pt none).length + link.length > 1024 := by
    rw [hbase, h1, h2]
    norm_num
  have hlim : 1024 - link.length = 984 := by omega
  have hcap : buildPhotoCaption pt link =
      truncate_markdown_v2_safely (escape_md_v2_preserving_formatting pt) 984 ++ link := by
    rw [hphoto_budget pt link hcond, hlim]
  have hlen : (truncate_markdown_v2_safely
      (escape_md_v2_preserving_formatting pt) 984).length ≤ 984 :=
    truncate_length_le _ 984 (by norm_num)
  refine ⟨hphoto_suffix, htext_suffix, hphoto_budget, htext_budget, hcap, ?_,
    le_trans hlen (by norm_num), ?_⟩
  · rw [hcap, List.length_append, h2]
    omega
  · unfold truncate_markdown_v2_safely
    rw [if_neg (by omega)]
    simp

/-- Witness for the amended claim C5: a body of 1100 letters and a link
of 40 characters. -/
theorem claim5_amended_link_after_truncation_witness :
    (∀ pt2 link2 : List Char, ∃ pre, buildPhotoCaption pt2 link2 = pre ++ link2) ∧
    (∀ pt2 link2 : List Char, ∃ pre, buildTextBody pt2 link2 = pre ++ link2) ∧
    (∀ pt2 link2 : List Char,
      (prepare_markdown_v2 pt2 none).length + link2.length > 1024 →
      buildPhotoCaption pt2 link2 =
        truncate_markdown_v2_safely (escape_md_v2_preserving_formatting pt2)
          (1024 - link2.length) ++ link2) ∧
    (∀ pt2 link2 : List Char,
      (prepare_markdown_v2 pt2 none ++ link2).length > 4096 →
      buildTextBody pt2 link2 =
        truncate_markdown_v2_safely (escape_md_v2_preserving_formatting pt2)
          (4096 - link2.length) ++ link2) ∧
    buildPhotoCaption (List.replicate 1100 'a') (List.replicate 40 'L') =
      truncate_markdown_v2_safely
        (escape_md_v2_preserving_formatting (List.replicate 1100 'a')) 984 ++
        List.replicate 40 'L' ∧
    (buildPhotoCaption (List.replicate 1100 'a') (List.replicate 40 'L')).length
      ≤ 1024 ∧
    (truncate_markdown_v2_safely
      (escape_md_v2_preserving_formatting (List.replicate 1100 'a')) 984).length
      ≤ 985 ∧
    (truncate_markdown_v2_safely
      (escape_md_v2_preserving_formatting (List.replicate 1100 'a')) 984).getLast? =
      some '…' :=
  claim5_amended_link_after_truncation (List.replicate 1100 'a') (List.replicate 40 'L')
    (by rw [escape_replicate_a, List.length_replicate])
    (by rw [List.length_replicate])

/-- The reserved-character escaping pass distributes over append. -/
theorem escSpecial_append (a b : List Char) :
    escSpecial (a ++ b) = escSpecial a ++ escSpecial b := by
  induction a with
  | nil => rfl
  | cons c rest ih =>
    simp only [List.cons_append, escSpecial, List.append_eq, ih, List.append_assoc]

/-- Unmasking the bold placeholder distributes over append. -/
theorem unmaskBold_append (a b : List Char) :
    unmaskBold (a ++ b) = unmaskBold a ++ unmaskBold b := by
  induction a with
  | nil => rfl
  | cons c rest ih =>
    simp only [List.cons_append, unmaskBold, List.append_eq, ih, List.append_assoc]

/-- Unmasking the italic placeholder distributes over append. -/
theorem unmaskItalic_append (a b : List Char) :
    unmaskItalic (a ++ b) = unmaskItalic a ++ unmaskItalic b := by
  induction a with
  | nil => rfl
  | cons c rest ih =>
    simp only [List.cons_append, unmaskItalic, List.append_eq, ih, List.append_assoc]

/-- A backslash consumes the next character in the unescaped-reserved
parse. -/
theorem unescapedReserved_pair (x : Char) (l : List Char) :
    unescapedReserved ('\\' :: x :: l) = unescapedReserved l := rfl

/-- A non-backslash non-reserved character is transparent to the
unescaped-reserved parse. -/
theorem unescapedReserved_skip (c : Char) (l : List Char) (hbs : c ≠ '\\')
    (hsp : isSpecialChar c = false) :
    unescapedReserved (c :: l) = unescapedReserved l := by
  cases l with
  | nil => simp [unescapedReserved, hbs, hsp]
  | cons x rest => simp [unescapedReserved, hbs, hsp]

/-- After backslash escaping followed by reserved-character escaping and
both unmasking passes, every reserved character of the result is escaped:
the unescaped-reserved parse finds nothing, whatever the input. -/
theorem unescaped_after_escape (l : List Char) :
    unescapedReserved (unmaskItalic (unmaskBold (escSpecial (escBackslash l)))) = [] := by
  induction l with
  | nil => rfl
  | cons c rest ih =>
    rw [show escBackslash (c :: rest) =
      (if c = '\\' then ['\\', '\\'] else [c]) ++ escBackslash rest from rfl]
    rw [escSpecial_append, unmaskBold_append, unmaskItalic_append]
    by_cases hbs : c = '\\'
    · subst hbs
      rw [if_pos rfl]
      rw [show unmaskItalic (unmaskBold (escSpecial ['\\', '\\'])) = ['\\', '\\'] from rfl]
      rw [List.cons_append, List.cons_append, List.nil_append, unescapedReserved_pair]
      exact ih
    · rw [if_neg hbs]
      rw [show escSpecial [c] = (if isSpecialChar c then ['\\', c] else [c]) ++ [] from rfl,
        List.append_nil]
      by_cases hsp : isSpecialChar c = true
      · rw [if_pos hsp]
        have hm1 : c ≠ '\uE001' := by
          intro h
          subst h
          exact absurd hsp (by decide)
        have hm2 : c ≠ '\uE002' := by
          intro h
          subst h
          exact absurd hsp (by decide)
        rw [show (['\\', c] : List Char) = ['\\'] ++ [c] from rfl,
          unmaskBold_append, unmaskItalic_append,
          show unmaskBold ['\\'] = ['\\'] from rfl,
          show unmaskBold [c] = (if c = '\uE001' then ['*', '*'] else [c]) ++ [] from rfl,
          if_neg hm1, List.append_nil,
          show unmaskItalic ['\\'] = ['\\'] from rfl,
          show unmaskItalic [c] = (if c = '\uE002' then ['*'] else [c]) ++ [] from rfl,
          if_neg hm2, List.append_nil]
        rw [List.append_assoc, List.singleton_append, List.singleton_append,
          unescapedReserved_pair]
        exact ih
      · rw [if_neg hsp]
        by_cases hm1 : c = '\uE001'
        · subst hm1
          rw [show unmaskItalic (unmaskBold ['\uE001']) = ['*', '*'] from rfl]
          rw [List.cons_append, List.singleton_append,
            unescapedReserved_skip '*' _ (by decide) (by decide),
            unescapedReserved_skip '*' _ (by decide) (by decide)]
          exact ih
        · by_cases hm2 : c = '\uE002'
          · subst hm2
            rw [show unmaskItalic (unmaskBold ['\uE002']) = ['*'] from rfl]
            rw [List.singleton_append,
              unescapedReserved_skip '*' _ (by decide) (by decide)]
            exact ih
          · rw [show unmaskBold [c] = (if c = '\uE001' then ['*', '*'] else [c]) ++ [] from rfl,
              if_neg hm1, List.append_nil]
            rw [show unmaskItalic [c] = (if c = '\uE002' then ['*'] else [c]) ++ [] from rfl,
              if_neg hm2, List.append_nil]
            rw [List.singleton_append,
              unescapedReserved_skip c _ hbs (by simp [hsp])]
            exact ih

/-- A backslash pair in the one-level unescape yields the escaped
character. -/
theorem unescapeOnce_pair (x : Char) (l : List Char) :
    unescapeOnce ('\\' :: x :: l) = x :: unescapeOnce l := rfl

/-- A non-backslash character is kept by the one-level unescape. -/
theorem unescapeOnce_skip (c : Char) (l : List Char) (hbs : c ≠ '\\') :
    unescapeOnce (c :: l) = c :: unescapeOnce l := by
  cases l with
  | nil => simp [unescapeOnce, hbs]
  | cons x rest => simp [unescapeOnce, hbs]

/-- Escaping backslashes first and reserved characters second is exactly
undone by removing one level of escapes: no character is double-escaped
and none is lost. -/
theorem unescapeOnce_escape (l : List Char) :
    unescapeOnce (escSpecial (escBackslash l)) = l := by
  induction l with
  | nil => rfl
  | cons c rest ih =>
    rw [show escBackslash (c :: rest) =
      (if c = '\\' then ['\\', '\\'] else [c]) ++ escBackslash rest from rfl]
    rw [escSpecial_append]
    by_cases hbs : c = '\\'
    · subst hbs
      rw [if_pos rfl]
      rw [show escSpecial ['\\', '\\'] = ['\\', '\\'] from rfl]
      rw [List.cons_append, List.cons_append, List.nil_append, unescapeOnce_pair, ih]
    · rw [if_neg hbs]
      rw [show escSpecial [c] = (if isSpecialChar c then ['\\', c] else [c]) ++ [] from rfl,
        List.append_nil]
      by_cases hsp : isSpecialChar c = true
      · rw [if_pos hsp, List.cons_append, List.singleton_append, unescapeOnce_pair, ih]
      · rw [if_neg hsp, List.singleton_append, unescapeOnce_skip c _ hbs, ih]

/-- Claim C2: the formatter output contains no unescaped reserved
character (the canonical markers, being asterisks, are outside the
reserved set), and because literal backslashes are escaped before any
other character the escaping pass is exactly invertible, so no character
is double-escaped. -/
theorem claim2_formatter_escapes_reserved (text : List Char) :
    unescapedReserved (escape_md_v2_preserving_formatting text) = [] ∧
    unescapeOnce (escSpecial (escBackslash (maskedStage text))) = maskedStage text :=
  ⟨unescaped_after_escape (maskedStage text), unescapeOnce_escape (maskedStage text)⟩

/-- The first substitution pass preserves the parity of the underscore
count: every match consumes four underscores. -/
theorem subBoldF_count_parity (f : Nat) (l : List Char) :
    (subBoldF f l).count '_' % 2 = l.count '_' % 2 := by
  induction f, l using subBoldF.induct with
  | case1 l => rfl
  | case2 n => rfl
  | case3 f rest run rest2 h hrun ih =>
    rw [subBoldF.eq_3]
    simp only [h]
    rw [if_pos hrun]
    simp [List.count_cons] at ih ⊢
    omega
  | case4 f rest run rest2 h hrun ih =>
    rw [subBoldF.eq_3]
    simp only [h]
    rw [if_neg hrun]
    have hr : ('_' : Char) ∉ run := by
      intro hm
      have := List.mem_takeWhile_imp hm
      simp [pClass] at this
    have hrc : List.count '_' run = 0 := List.count_eq_zero.mpr hr
    have hsplit : run ++ '_' :: '_' :: rest2 = rest := by
      rw [← h]
      exact List.takeWhile_append_dropWhile pClass rest
    have hrest : List.count '_' rest = List.count '_' rest2 + 2 := by
      rw [← hsplit]
      simp [List.count_append, List.count_cons, hrc]
    simp [List.count_cons, List.count_append, hrc, hrest]
    omega
  | case5 f rest h ih =>
    have heq : subBoldF (f + 1) ('_' :: '_' :: rest) = '_' :: subBoldF f ('_' :: rest) := by
      rw [subBoldF.eq_3]
      split
      · rename_i rest2 hmatch
        exact (h rest2 hmatch).elim
      · rfl
    rw [heq]
    simp [List.count_cons] at ih ⊢
    omega
  | case6 f c rest h ih =>
    rw [subBoldF.eq_4 f c rest h]
    simp [List.count_cons]
    omega

/-- The second substitution pass preserves the parity of the underscore
count: every match consumes two underscores. -/
theorem subItalicF_count_parity (f : Nat) (l : List Char) :
    (subItalicF f l).count '_' % 2 = l.count '_' % 2 := by
  induction f, l using subItalicF.induct with
  | case1 l => rfl
  | case2 n => rfl
  | case3 f rest run rest2 h hrun ih =>
    rw [subItalicF.eq_3]
    simp only [h]
    rw [if_pos hrun]
    simp [List.count_cons] at ih ⊢
    omega
  | case4 f rest run rest2 h hrun ih =>
    rw [subItalicF.eq_3]
    simp only [h]
    rw [if_neg hrun]
    have hr : ('_' : Char) ∉ run := by
      intro hm
      have := List.mem_takeWhile_imp hm
      simp [pClass] at this
    have hrc : List.count '_' run = 0 := List.count_eq_zero.mpr hr
    have hsplit : run ++ '_' :: rest2 = rest := by
      rw [← h]
      exact List.takeWhile_append_dropWhile pClass rest
    have hrest : List.count '_' rest = List.count '_' rest2 + 1 := by
      rw [← hsplit]
      simp [List.count_append, List.count_cons, hrc]
    simp [List.count_cons, List.count_append, hrc, hrest]
    omega
  | case5 f rest h ih =>
    have heq : subItalicF (f + 1) ('_' :: rest) = '_' :: subItalicF f rest := by
      rw [subItalicF.eq_3]
      split
      · rename_i rest2 hmatch
        exact (h rest2 hmatch).elim
      · rfl
    rw [heq]
    simp [List.count_cons] at ih ⊢
    omega
  | case6 f c rest h ih =>
    rw [subItalicF.eq_4 f c rest h]
    simp [List.count_cons]
    omega

/-- Masking the bold marker does not change the underscore count. -/
theorem maskBold_count (l : List Char) :
    (maskBold l).count '_' = l.count '_' := by
  induction l using maskBold.induct with
  | case1 rest ih =>
    rw [show maskBold ('*' :: '*' :: rest) = '\uE001' :: maskBold rest from rfl]
    simp [List.count_cons, ih]
  | case2 c rest h ih =>
    rw [maskBold.eq_2 c rest h]
    simp [List.count_cons, ih]
  | case3 => rfl

/-- Masking the italic marker does not change the underscore count. -/
theorem maskItalic_count (l : List Char) :
    (maskItalic l).count '_' = l.count '_' := by
  induction l with
  | nil => rfl
  | cons c rest ih =>
    unfold maskItalic at ih ⊢
    simp only [List.map_cons, List.count_cons, ih]
    by_cases hc : c = '*'
    · subst hc
      simp
    · simp [hc]

/-- Escaping backslashes does not change the underscore count. -/
theorem escBackslash_count (l : List Char) :
    (escBackslash l).count '_' = l.count '_' := by
  induction l with
  | nil => rfl
  | cons c rest ih =>
    unfold escBackslash
    by_cases hc : c = '\\'
    · subst hc
      simp [List.count_cons, List.count_append, ih]
    · simp [hc, List.count_cons, List.count_append, ih]

/-- Escaping reserved characters does not change the underscore count:
an underscore gains a preceding backslash but remains present once. -/
theorem escSpecial_count (l : List Char) :
    (escSpecial l).count '_' = l.count '_' := by
  induction l with
  | nil => rfl
  | cons c rest ih =>
    unfold escSpecial
    by_cases hc : isSpecialChar c = true
    · simp [hc, List.count_cons, List.count_append, ih]
    · simp [hc, List.count_cons, List.count_append, ih]

/-- Unmasking the bold placeholder does not change the underscore count. -/
theorem unmaskBold_count (l : List Char) :
    (unmaskBold l).count '_' = l.count '_' := by
  induction l with
  | nil => rfl
  | cons c rest ih =>
    unfold unmaskBold
    by_cases hc : c = '\uE001'
    · subst hc
      simp [List.count_cons, List.count_append, ih]
    · simp [hc, List.count_cons, List.count_append, ih]

/-- Unmasking the italic placeholder does not change the underscore
count. -/
theorem unmaskItalic_count (l : List Char) :
    (unmaskItalic l).count '_' = l.count '_' := by
  induction l with
  | nil => rfl
  | cons c rest ih =>
    unfold unmaskItalic
    by_cases hc : c = '\uE002'
    · subst hc
      simp [List.count_cons, List.count_append, ih]
    · simp [hc, List.count_cons, List.count_append, ih]

/-- The whole formatter preserves the parity of the underscore count. -/
theorem escape_count_parity (t : List Char) :
    (escape_md_v2_preserving_formatting t).count '_' % 2 = t.count '_' % 2 := by
  unfold escape_md_v2_preserving_formatting maskedStage subBold subItalic
  rw [unmaskItalic_count, unmaskBold_count, escSpecial_count, escBackslash_count,
    maskItalic_count, maskBold_count, subItalicF_count_parity, subBoldF_count_parity]

/-- Claim C6 counterexample: the input underscore a underscore underscore
b underscore c underscore has an odd underscore count (five), so it
contains an unmatched single marker; yet the formatter output, scanned
with the span scanner of the program, ends with the bold depth open —
open formatting state does leak past the function boundary, because the
closing asterisk of one italic span and the opening asterisk of the next
are masked together as a bold marker. -/
theorem claim6_counterexample :
    (['_', 'a', '_', '_', 'b', '_', 'c', '_'].count '_') % 2 = 1 ∧
    spanScan (escape_md_v2_preserving_formatting ['_', 'a', '_', '_', 'b', '_', 'c', '_'])
      none false false ≠ (false, false) := by
  constructor
  · decide
  · decide

/-- Claim C6 amended: an unmatched single marker is passed through the
escaping pass like ordinary text — with an odd underscore count the
output still has an odd underscore count (so at least one marker
survives as text) and no reserved character of the output, the
underscore included, is unescaped; the surviving marker is therefore
escaped, not a span delimiter.  The original further claim that no open
formatting state can leak past the function boundary is dropped: the
counterexample shows adjacent italic spans can leak an open bold
depth. -/
theorem claim6_amended_marker_escaped (t : List Char) (hodd : t.count '_' % 2 = 1) :
    (escape_md_v2_preserving_formatting t).count '_' % 2 = 1 ∧
    unescapedReserved (escape_md_v2_preserving_formatting t) = [] := by
  constructor
  · rw [escape_count_parity, hodd]
  · exact unescaped_after_escape (maskedStage t)

/-- Witness for the amended claim C6 at a single unmatched marker. -/
theorem claim6_amended_marker_escaped_witness :
    (escape_md_v2_preserving_formatting ['_']).count '_' % 2 = 1 ∧
    unescapedReserved (escape_md_v2_preserving_formatting ['_']) = [] :=
  claim6_amended_marker_escaped ['_'] (by decide)

/-- A string without asterisks leaves the span depths unchanged. -/
theorem spanScan_no_star (w : List Char) (prev : Option Char) (ob oi : Bool)
    (hw : ∀ c ∈ w, c ≠ '*') : spanScan w prev ob oi = (ob, oi) := by
  induction w, prev, ob, oi using spanScan.induct with
  | case1 prev ob oi => rfl
  | case2 c prev ob oi =>
    rw [spanScan.eq_2, if_neg (by intro h; exact hw c (by simp) h.1)]
  | case3 c d s prev ob oi h ih =>
    exact absurd h.1 (hw c (by simp))
  | case4 c d s prev ob oi h ih =>
    have hcond : ¬(c = '*' ∧ prev ≠ some '\\' ∧ d ≠ '*') := by
      intro hx
      exact hw c (by simp) hx.1
    have ih2 := ih (fun x hx => hw x (List.mem_cons_of_mem _ hx))
    rw [if_neg hcond] at ih2
    rw [spanScan.eq_3, if_neg h, if_neg hcond]
    exact ih2

/-- Appending asterisk-free characters does not change the final span
depths of a scan. -/
theorem spanScan_append_no_star (q : List Char) (prev : Option Char) (ob oi : Bool)
    (w : List Char) (hw : ∀ c ∈ w, c ≠ '*') :
    spanScan (q ++ w) prev ob oi = spanScan q prev ob oi := by
  induction q, prev, ob, oi using spanScan.induct with
  | case1 prev ob oi =>
    rw [List.nil_append, spanScan_no_star w prev ob oi hw]
    rfl
  | case2 c prev ob oi =>
    cases w with
    | nil => rw [List.append_nil]
    | cons e w2 =>
      have he : e ≠ '*' := hw e (by simp)
      have hcond : (c = '*' ∧ prev ≠ some '\\' ∧ e ≠ '*') ↔ (c = '*' ∧ prev ≠ some '\\') :=
        ⟨fun hx => ⟨hx.1, hx.2.1⟩, fun hx => ⟨hx.1, hx.2, he⟩⟩
      calc spanScan ([c] ++ e :: w2) prev ob oi
          = spanScan (e :: w2) (some c) ob
              (if c = '*' ∧ prev ≠ some '\\' ∧ e ≠ '*' then !oi else oi) := by
            rw [List.singleton_append, spanScan.eq_3,
              if_neg (fun hx => he hx.2.1)]
        _ = (ob, if c = '*' ∧ prev ≠ some '\\' ∧ e ≠ '*' then !oi else oi) :=
            spanScan_no_star _ _ _ _ hw
        _ = (ob, if c = '*' ∧ prev ≠ some '\\' then !oi else oi) := by
            rw [if_congr hcond rfl rfl]
        _ = spanScan [c] prev ob oi := (spanScan.eq_2 prev ob oi c).symm
  | case3 c d s prev ob oi h ih =>
    rw [List.cons_append, List.cons_append, spanScan.eq_3, if_pos h,
      spanScan.eq_3, if_pos h]
    exact ih
  | case4 c d s prev ob oi h ih =>
    rw [List.cons_append, List.cons_append, spanScan.eq_3, if_neg h]
    conv_rhs => rw [spanScan.eq_3, if_neg h]
    rw [← List.cons_append]
    exact ih

/-- The final depths of the span scan are the initial depths flipped by
the parity of the marker counts. -/
theorem spanScan_countMarkers (l : List Char) (prev : Option Char) (ob oi : Bool) :
    spanScan l prev ob oi =
      (if (countMarkers l prev).1 % 2 = 0 then ob else !ob,
       if (countMarkers l prev).2 % 2 = 0 then oi else !oi) := by
  induction l, prev, ob, oi using spanScan.induct with
  | case1 prev ob oi =>
    rw [spanScan.eq_1, countMarkers]
    norm_num
  | case2 c prev ob oi =>
    rw [spanScan.eq_2, countMarkers]
    by_cases h : c = '*' ∧ prev ≠ some '\\'
    · rw [if_pos h, if_pos h]
      norm_num
    · rw [if_neg h, if_neg h]
      norm_num
  | case3 c d s prev ob oi h ih =>
    rw [spanScan.eq_3, if_pos h, countMarkers, if_pos h, ih]
    refine Prod.ext ?_ rfl
    show (if (countMarkers s (some '*')).1 % 2 = 0 then !ob else !!ob) =
      (if ((countMarkers s (some '*')).1 + 1) % 2 = 0 then ob else !ob)
    by_cases hb : (countMarkers s (some '*')).1 % 2 = 0
    · rw [if_pos hb, if_neg (by omega)]
    · rw [if_neg hb, if_pos (by omega)]
      exact Bool.not_not ob
  | case4 c d s prev ob oi h ih =>
    rw [spanScan.eq_3, if_neg h, countMarkers, if_neg h, ih]
    refine Prod.ext rfl ?_
    show (if (countMarkers (d :: s) (some c)).2 % 2 = 0 then
        (if c = '*' ∧ prev ≠ some '\\' ∧ d ≠ '*' then !oi else oi)
      else !(if c = '*' ∧ prev ≠ some '\\' ∧ d ≠ '*' then !oi else oi)) =
      (if (if c = '*' ∧ prev ≠ some '\\' ∧ d ≠ '*' then
          (countMarkers (d :: s) (some c)).2 + 1
        else (countMarkers (d :: s) (some c)).2) % 2 = 0 then oi else !oi)
    by_cases hc : c = '*' ∧ prev ≠ some '\\' ∧ d ≠ '*'
    · rw [if_pos hc, if_pos hc]
      by_cases hit : (countMarkers (d :: s) (some c)).2 % 2 = 0
      · rw [if_pos hit, if_neg (by omega)]
      · rw [if_neg hit, if_pos (by omega)]
        simp
    · rw [if_neg hc, if_neg hc]

/-- Safety of the recorded cut position: whenever the truncator scan
returns a last safe space, the prefix of the text up to that position
scans to zero open depths.  The two scan-state hypotheses express that
the scanned prefix reaches the current state; the starred variant is
only required when the suffix begins with an asterisk, which is exactly
when the prefix is known not to end inside a marker. -/
theorem truncLoop_safe (s : List Char) (prev : Option Char) (i stop : Nat)
    (ob oi : Bool) (lss : Option Nat) :
    ∀ (p : List Char), p.length = i →
    (∀ r, r.head? ≠ some '*' →
      spanScan (p ++ r) none false false = spanScan r prev ob oi) →
    (s.head? = some '*' → ∀ r,
      spanScan (p ++ r) none false false = spanScan r prev ob oi) →
    (∀ j0, lss = some j0 →
      spanScan ((p ++ s).take j0) none false false = (false, false)) →
    ∀ j, truncLoop s prev i stop ob oi lss = some j →
    spanScan ((p ++ s).take j) none false false = (false, false) := by
  induction s, prev, i, stop, ob, oi, lss using truncLoop.induct with
  | case1 prev i stop ob oi lss =>
    intro p hp hinv hinvs hlss j hj
    exact hlss j hj
  | case2 c prev i stop ob oi lss h1 h2 =>
    intro p hp hinv hinvs hlss j hj
    simp only [truncLoop, if_pos h1, if_pos h2, Option.some.injEq] at hj
    subst hj
    rw [← hp, List.take_left]
    have := hinv [] (by simp)
    rw [List.append_nil, spanScan.eq_1] at this
    rw [this, h2.2.1, h2.2.2]
  | case3 c prev i stop ob oi lss h1 h2 =>
    intro p hp hinv hinvs hlss j hj
    simp only [truncLoop, if_pos h1, if_neg h2] at hj
    exact hlss j hj
  | case4 c prev i stop ob oi lss h1 =>
    intro p hp hinv hinvs hlss j hj
    simp only [truncLoop, if_neg h1] at hj
    exact hlss j hj
  | case5 c d s prev i stop ob oi lss h1 h2 ih =>
    intro p hp hinv hinvs hlss j hj
    simp only [truncLoop, if_pos h1, if_pos h2] at hj
    obtain ⟨hc, hd, hpb⟩ := h2
    subst hc
    subst hd
    have hshape : ∀ r : List Char, (p ++ ['*', '*']) ++ r = p ++ '*' :: '*' :: r := by
      intro r
      rw [List.append_assoc]
      rfl
    have hone : ∀ r : List Char,
        spanScan ('*' :: '*' :: r) prev ob oi = spanScan r (some '*') (!ob) oi := by
      intro r
      rw [spanScan.eq_3, if_pos ⟨rfl, rfl, hpb⟩]
    have hinv2 : ∀ r, spanScan ((p ++ ['*', '*']) ++ r) none false false =
        spanScan r (some '*') (!ob) oi := by
      intro r
      rw [hshape r, hinvs (by simp) ('*' :: '*' :: r), hone r]
    have heq : (p ++ ['*', '*']) ++ s = p ++ '*' :: '*' :: s := hshape s
    have := ih (p ++ ['*', '*']) (by simp [hp])
      (fun r _ => hinv2 r) (fun _ r => hinv2 r)
      (fun j0 hj0 => by rw [heq]; exact hlss j0 hj0)
      j hj
    rw [heq] at this
    exact this
  | case6 c d s prev i stop ob oi lss h1 h2 ih =>
    intro p hp hinv hinvs hlss j hj
    simp only [truncLoop, if_pos h1, if_neg h2] at hj
    have hshape : ∀ r : List Char, (p ++ [c]) ++ r = p ++ c :: r := by
      intro r
      rw [List.append_assoc]
      rfl
    have hbase : ∀ r, spanScan (p ++ c :: r) none false false =
        spanScan (c :: r) prev ob oi := by
      intro r
      by_cases hc : c = '*'
      · exact hinvs (by simp [hc]) (c :: r)
      · exact hinv (c :: r) (by simp [hc])
    have hinv2 : ∀ r, r.head? ≠ some '*' →
        spanScan ((p ++ [c]) ++ r) none false false =
          spanScan r (some c) ob
            (if c = '*' ∧ prev ≠ some '\\' ∧ d ≠ '*' then !oi else oi) := by
      intro r hr
      rw [hshape r, hbase r]
      cases r with
      | nil =>
        rw [spanScan.eq_2, spanScan.eq_1]
        refine Prod.ext rfl ?_
        show (if c = '*' ∧ prev ≠ some '\\' then !oi else oi) =
          (if c = '*' ∧ prev ≠ some '\\' ∧ d ≠ '*' then !oi else oi)
        by_cases hx : c = '*' ∧ prev ≠ some '\\'
        · rw [if_pos hx, if_pos ⟨hx.1, hx.2, fun hd => h2 ⟨hx.1, hd, hx.2⟩⟩]
        · rw [if_neg hx, if_neg (fun hy => hx ⟨hy.1, hy.2.1⟩)]
      | cons e r2 =>
        have he : e ≠ '*' := by
          intro hx
          rw [hx] at hr
          simp at hr
        rw [spanScan.eq_3, if_neg (fun hx => he hx.2.1)]
        congr 1
        by_cases hx : c = '*' ∧ prev ≠ some '\\'
        · rw [if_pos ⟨hx.1, hx.2, he⟩, if_pos ⟨hx.1, hx.2, fun hd => h2 ⟨hx.1, hd, hx.2⟩⟩]
        · rw [if_neg (fun hy => hx ⟨hy.1, hy.2.1⟩), if_neg (fun hy => hx ⟨hy.1, hy.2.1⟩)]
    have hinvs2 : (d :: s).head? = some '*' → ∀ r,
        spanScan ((p ++ [c]) ++ r) none false false =
          spanScan r (some c) ob
            (if c = '*' ∧ prev ≠ some '\\' ∧ d ≠ '*' then !oi else oi) := by
      intro hd r
      simp only [List.head?_cons, Option.some.injEq] at hd
      have hnx : ¬(c = '*' ∧ prev ≠ some '\\') := by
        intro hx
        exact h2 ⟨hx.1, hd, hx.2⟩
      have hcnd : ¬(c = '*' ∧ prev ≠ some '\\' ∧ d ≠ '*') :=
        fun hy => hnx ⟨hy.1, hy.2.1⟩
      rw [hshape r, hbase r, if_neg hcnd]
      cases r with
      | nil =>
        rw [spanScan.eq_2, spanScan.eq_1, if_neg hnx]
      | cons e r2 =>
        rw [spanScan.eq_3,
          if_neg (fun hx : c = '*' ∧ e = '*' ∧ prev ≠ some '\\' => hnx ⟨hx.1, hx.2.2⟩),
          if_neg (fun hy : c = '*' ∧ prev ≠ some '\\' ∧ e ≠ '*' => hnx ⟨hy.1, hy.2.1⟩)]
    have heq : (p ++ [c]) ++ (d :: s) = p ++ c :: d :: s := hshape (d :: s)
    have hlss2 : ∀ j0,
        (if c = ' ' ∧ ob = false ∧ oi = false then some i else lss) = some j0 →
        spanScan (((p ++ [c]) ++ (d :: s)).take j0) none false false = (false, false) := by
      intro j0 hj0
      rw [heq]
      by_cases hsp : c = ' ' ∧ ob = false ∧ oi = false
      · rw [if_pos hsp, Option.some.injEq] at hj0
        subst hj0
        rw [← hp, List.take_left]
        have := hinv [] (by simp)
        rw [List.append_nil, spanScan.eq_1] at this
        rw [this, hsp.2.1, hsp.2.2]
      · rw [if_neg hsp] at hj0
        exact hlss j0 hj0
    have := ih (p ++ [c]) (by simp [hp])
      hinv2 hinvs2 hlss2 j hj
    rw [heq] at this
    exact this
  | case7 c d s prev i stop ob oi lss h1 =>
    intro p hp hinv hinvs hlss j hj
    simp only [truncLoop, if_neg h1] at hj
    exact hlss j hj

/-- A string splits into its right-stripped part and a whitespace
tail. -/
theorem rstrip_decomp (l : List Char) :
    ∃ w, l = rstripChars l ++ w ∧ ∀ c ∈ w, isPyWhitespace c = true := by
  refine ⟨(l.reverse.takeWhile isPyWhitespace).reverse, ?_, ?_⟩
  · conv_lhs => rw [← l.reverse_reverse]
    conv_lhs =>
      rw [show l.reverse = l.reverse.takeWhile isPyWhitespace ++
        l.reverse.dropWhile isPyWhitespace from
        (List.takeWhile_append_dropWhile _ _).symm]
    rw [List.reverse_append]
    rfl
  · intro c hc
    rw [List.mem_reverse] at hc
    exact List.mem_takeWhile_imp hc

/-- Stripping trailing whitespace and appending the ellipsis do not
change the final span depths: neither touches an asterisk. -/
theorem spanScan_rstrip_ellipsis (q : List Char) :
    spanScan (rstripChars q ++ ['…']) none false false =
      spanScan q none false false := by
  rw [spanScan_append_no_star _ _ _ _ ['…'] (by
    intro c hc
    simp at hc
    subst hc
    decide)]
  obtain ⟨w, hq, hw⟩ := rstrip_decomp q
  conv_rhs => rw [hq]
  rw [spanScan_append_no_star _ _ _ _ w (by
    intro c hc hx
    subst hx
    exact absurd (hw _ hc) (by decide))]

/-- Claim C4: when the escaped text is longer than the limit and the scan
finds a safe space (a space seen while both depths are zero) within the
scanned window, the truncated result has zero open spans: both the
number of unescaped canonical bold markers and the number of unescaped
canonical italic markers of the result are even. -/
theorem claim4_truncate_balanced (text : List Char) (limit : Nat)
    (hlen : limit < text.length)
    (hsafe : (truncLoop text none 0 (min text.length limit) false false
      none).isSome = true) :
    (countMarkers (truncate_markdown_v2_safely text limit) none).1 % 2 = 0 ∧
    (countMarkers (truncate_markdown_v2_safely text limit) none).2 % 2 = 0 := by
  obtain ⟨j, hj⟩ := Option.isSome_iff_exists.mp hsafe
  have hres : truncate_markdown_v2_safely text limit =
      rstripChars (text.take j) ++ ['…'] := by
    simp only [truncate_markdown_v2_safely]
    rw [if_neg (by omega), hj, Option.getD_some]
  have hscan : spanScan (text.take j) none false false = (false, false) := by
    have := truncLoop_safe text none 0 (min text.length limit) false false none
      [] rfl (fun r _ => by rw [List.nil_append]) (fun _ r => by rw [List.nil_append])
      (fun j0 hj0 => by cases hj0) j hj
    rwa [List.nil_append] at this
  have hs2 : spanScan (truncate_markdown_v2_safely text limit) none false false =
      (false, false) := by
    rw [hres, spanScan_rstrip_ellipsis, hscan]
  have hpar := spanScan_countMarkers (truncate_markdown_v2_safely text limit)
    none false false
  rw [hs2] at hpar
  constructor
  · by_contra h
    rw [if_neg h] at hpar
    have := congrArg Prod.fst hpar
    simp at this
  · by_contra h
    rw [if_neg h] at hpar
    have := congrArg Prod.snd hpar
    simp at this

/-- Witness for claim C4: a five-character text with a safe space at
position two, truncated at limit four. -/
theorem claim4_truncate_balanced_witness :
    (countMarkers (truncate_markdown_v2_safely ['a', 'b', ' ', 'c', 'd'] 4) none).1
      % 2 = 0 ∧
    (countMarkers (truncate_markdown_v2_safely ['a', 'b', ' ', 'c', 'd'] 4) none).2
      % 2 = 0 :=
  claim4_truncate_balanced ['a', 'b', ' ', 'c', 'd'] 4 (by decide) (by decide)

/-- Sanity evaluation: truncation cuts at the safe space and appends the
ellipsis. -/
theorem sanity_truncate_example :
    truncate_markdown_v2_safely ['a', 'b', ' ', 'c', 'd'] 4 = ['a', 'b', '…'] := by
  decide

/-- Sanity evaluation: the double-underscore convention becomes double
asterisks. -/
theorem sanity_subBold_example :
    subBold ['_', '_', 'a', '_', '_'] = ['*', '*', 'a', '*', '*'] := by decide

/-- Sanity evaluation: a single-underscore span becomes an italic span
and the dot is escaped. -/
theorem sanity_escape_example :
    escape_md_v2_preserving_formatting ['_', 'a', '_', '.'] =
      ['*', 'a', '*', '\\', '.'] := by decide

/-- Sanity evaluation: the formatter output behind the claim C6
counterexample, matching a hand trace of the source. -/
theorem sanity_escape_counterexample_input :
    escape_md_v2_preserving_formatting ['_', 'a', '_', '_', 'b', '_', 'c', '_'] =
      ['*', 'a', '*', '*', 'b', '*', 'c', '\\', '_'] := by decide

/-- Sanity evaluation: the span scan of that output ends with the bold
depth open. -/
theorem sanity_span_scan_example :
    spanScan ['*', 'a', '*', '*', 'b', '*', 'c', '\\', '_'] none false false =
      (true, false) := by decide
